import Mathlib

/-!
Shallow embedding of the Athena multi-node execution orchestrator.

The definitions below are translated from the repository's source:
  - src/chat_engine.py : generate_execution_narrative, resolve_node,
    analyze_output_with_llm
  - src/chat_api.py    : execute_rule, stream_execution (its event_generator:
    process_node, sequential_runner, the consumer loop and finalization)
  - src/executor.py    : SSHExecutor.run_command, execute_runbook's final
    status classification

Modelling conventions: remote I/O (SSH connect, command execution, the LLM
call) is abstracted as explicit behaviour values; a Python exception raised
by a collaborator becomes an explicit error constructor; Python str-enums
(RuleStatus, ExecutionStatus) are modelled as their string values; the
asyncio queue consumed by the SSE loop is the list of produced events in
queue order, and the boundary between the polling loop and the final drain
loop is an arbitrary split position (the real boundary depends on timing).
Python's regex \d is modelled as a decimal digit test, which agrees with it
on the ASCII inputs considered here.
-/

namespace Athena

/-- Timeline event kinds, the "type" field of the streamed JSON objects. -/
inductive EventType where
  | step
  | incident
  | error
  | complete
deriving DecidableEq

/-- The analysis dict produced by analyze_output_with_llm (chat_engine.py):
extracted_value, condition_met, summary, severity. -/
structure Analysis where
  extracted_value : String
  condition_met : Bool
  summary : String
  severity : String
deriving DecidableEq

/-- One timeline event as put on the asyncio queue by process_node
(chat_api.py): a dict with "type" and "message" always present and
"status", "severity", "node", "details" present on some event kinds. -/
structure Event where
  type : EventType
  message : String
  status : Option String
  severity : Option String
  node : Option String
  details : Option Analysis
deriving DecidableEq

/-- The details dict passed to generate_execution_narrative, with the
defaults its .get calls supply (chat_engine.py). -/
structure NarrativeDetails where
  node : String
  command : String
  value : String
  condition : String
  message : String
  error : String

def default_details : NarrativeDetails :=
  ⟨"node", "...", "N/A", "", "", "Unknown error"⟩

/-- generate_execution_narrative (src/chat_engine.py): the narratives
dict looked up by step name, falling back to the step name itself.
Python's `message or default` treats the empty string as falsy. -/
def generate_execution_narrative (step : String) (d : NarrativeDetails) : String :=
  if step = "connecting" then "Connecting to " ++ d.node ++ "..."
  else if step = "connected" then "SSH connection established to " ++ d.node
  else if step = "executing" then "Running command: " ++ d.command
  else if step = "output_received" then "Output received successfully"
  else if step = "analyzing" then "Analyzing output..."
  else if step = "value_extracted" then "Extracted value: " ++ d.value
  else if step = "condition_checking" then "Checking condition: " ++ d.condition
  else if step = "condition_met" then
    "⚠️ Condition met: " ++ (if d.message = "" then "threshold exceeded" else d.message)
  else if step = "condition_not_met" then
    "✓ All clear: " ++ (if d.message = "" then "within normal range" else d.message)
  else if step = "incident_raised" then "🚨 Incident raised: " ++ d.message
  else if step = "completed" then "Execution completed successfully"
  else if step = "failed" then "Execution failed: " ++ d.error
  else step

/-- A step event without a "status" field. -/
def step_event (msg : String) : Event :=
  ⟨EventType.step, msg, none, none, none, none⟩

/-- A step event with a "status" field. -/
def step_event_status (msg st : String) : Event :=
  ⟨EventType.step, msg, some st, none, none, none⟩

def connecting_event (node_name : String) : Event :=
  step_event (generate_execution_narrative "connecting" { default_details with node := node_name })

def connected_event (node_name : String) : Event :=
  step_event_status
    (generate_execution_narrative "connected" { default_details with node := node_name }) "success"

def executing_event (node_name cmd : String) : Event :=
  step_event (generate_execution_narrative "executing"
    { default_details with command := cmd, node := node_name })

def output_received_event (node_name : String) : Event :=
  step_event_status
    (generate_execution_narrative "output_received" { default_details with node := node_name })
    "success"

def analyzing_event (node_name : String) : Event :=
  step_event (generate_execution_narrative "analyzing" { default_details with node := node_name })

def condition_met_event (node_name summary : String) : Event :=
  step_event_status
    (generate_execution_narrative "condition_met"
      { default_details with message := summary, node := node_name })
    "warning"

def condition_not_met_event (node_name summary : String) : Event :=
  step_event_status
    (generate_execution_narrative "condition_not_met"
      { default_details with message := summary, node := node_name })
    "success"

/-- The incident event process_node puts on the queue when the analysis
reports condition_met (chat_api.py): type, message, severity, node, details. -/
def incident_event (node_name : String) (a : Analysis) : Event :=
  ⟨EventType.incident,
   generate_execution_narrative "incident_raised" { default_details with message := a.summary },
   none, some a.severity, some node_name, some a⟩

/-- The single error event emitted by process_node's `except` handler. -/
def error_event (node_name msg : String) : Event :=
  ⟨EventType.error,
   generate_execution_narrative "failed" { default_details with error := msg, node := node_name },
   none, none, none, none⟩

/-- The closing complete event yielded after finalization. -/
def complete_event : Event :=
  ⟨EventType.complete, generate_execution_narrative "completed" default_details,
   none, none, none, none⟩

/-! ## SSHExecutor.run_command (src/executor.py) -/

/-- The dict SSHExecutor.run_command returns. -/
structure CmdResultDict where
  status : String
  stdout : String
  stderr : String
  exit_code : Int
deriving DecidableEq

/-- Behaviour of one `connect + conn.run` attempt: the command completes
after `duration` seconds with an exit status, or asyncssh raises, or some
other exception is raised. -/
inductive SSHRunBehavior where
  | completes (exit_status : Int) (stdout stderr : String) (duration : Nat)
  | sshError (msg : String)
  | otherError (msg : String)

/-- SSHExecutor.run_command: asyncio.wait_for bounds conn.run by `timeout`
seconds (the Python default is 300); each except branch returns a FAILED
dict with exit_code -1. -/
def run_command (timeout : Nat) (b : SSHRunBehavior) : CmdResultDict :=
  match b with
  | SSHRunBehavior.completes exit_status stdout stderr duration =>
    if duration > timeout then
      ⟨"FAILED", "", "Command timed out after " ++ toString timeout ++ " seconds", -1⟩
    else
      ⟨if exit_status = 0 then "SUCCESS" else "FAILED", stdout, stderr, exit_status⟩
  | SSHRunBehavior.sshError msg => ⟨"FAILED", "", "SSH error: " ++ msg, -1⟩
  | SSHRunBehavior.otherError msg => ⟨"FAILED", "", "Unexpected error: " ++ msg, -1⟩

/-! ## analyze_output_with_llm (src/chat_engine.py) -/

/-- Behaviour of the LLM call inside analyze_output_with_llm: either the
response's content parses to an analysis dict, or something in the try
block raises (API error, timeout, json.loads failure) with message `msg`. -/
inductive LLMOutcome where
  | ok (a : Analysis)
  | fail (msg : String)

/-- analyze_output_with_llm's result as a function of the LLM call's
behaviour: the except branch returns the degraded analysis dict. -/
def analyze_output_with_llm : LLMOutcome → Analysis
  | LLMOutcome.ok a => a
  | LLMOutcome.fail msg => ⟨"unknown", false, "Could not analyze: " ++ msg, "info"⟩

/-- The analyzer as seen by a node worker: stdout, per-command logic hint
and the rule's condition give an analysis dict. -/
abbrev Analyzer := String → String → String → Analysis

/-! ## process_node and the orchestrator (src/chat_api.py, stream_execution) -/

/-- One entry of the rule's commands_json: {"cmd": ..., "logic": ...}. -/
structure CmdConfig where
  cmd : String
  logic : String
deriving DecidableEq

/-- Behaviour of `await conn.run(cmd_str, check=False)` for one command:
it returns stdout after `duration` seconds, or raises. -/
inductive RunOutcome where
  | ok (stdout : String) (duration : Nat)
  | err (msg : String)
deriving DecidableEq

/-- Behaviour of `await asyncssh.connect(...)` for one node. -/
inductive ConnectOutcome where
  | ok
  | err (msg : String)
deriving DecidableEq

/-- A node's transport behaviour: the connect attempt, and the outcome of
the i-th command run on it. -/
structure NodeBehavior where
  connect : ConnectOutcome
  run : Nat → RunOutcome

/-- A node of the plan: its display name plus its transport behaviour. -/
structure NodeRun where
  name : String
  behavior : NodeBehavior

/-- The events process_node emits for one command that ran without a
transport error: executing, output_received, analyzing, then either
condition_met plus an incident or condition_not_met. -/
def cmd_block (analyzer : Analyzer) (condition node_name : String)
    (c : CmdConfig) (stdout : String) : List Event :=
  executing_event node_name c.cmd
    :: output_received_event node_name
    :: analyzing_event node_name
    :: (if (analyzer stdout c.logic condition).condition_met then
          [condition_met_event node_name (analyzer stdout c.logic condition).summary,
           incident_event node_name (analyzer stdout c.logic condition)]
        else
          [condition_not_met_event node_name (analyzer stdout c.logic condition).summary])

/-- The command loop of process_node: `i` is the index of the next command.
A raised transport error propagates to the worker's except handler, which
emits one error event and ends the worker, so later commands are not run. -/
def process_cmds (analyzer : Analyzer) (condition node_name : String)
    (run : Nat → RunOutcome) : List CmdConfig → Nat → List Event
  | [], _ => []
  | c :: rest, i =>
    match run i with
    | RunOutcome.err msg => [executing_event node_name c.cmd, error_event node_name msg]
    | RunOutcome.ok stdout _ =>
      cmd_block analyzer condition node_name c stdout
        ++ process_cmds analyzer condition node_name run rest (i + 1)

/-- process_node: connecting step, the connect attempt, the connected step,
then the command loop; any transport exception is caught by the single
except handler which emits one error event for the node. -/
def process_node (analyzer : Analyzer) (condition : String)
    (n : NodeRun) (cmds : List CmdConfig) : List Event :=
  match n.behavior.connect with
  | ConnectOutcome.err msg => [connecting_event n.name, error_event n.name msg]
  | ConnectOutcome.ok =>
    connecting_event n.name
      :: connected_event n.name
      :: process_cmds analyzer condition n.name n.behavior.run cmds 0

/-- Per-node event lists, one asyncio producer each. -/
def node_queues (analyzer : Analyzer) (condition : String)
    (nodes : List NodeRun) (cmds : List CmdConfig) : List (List Event) :=
  nodes.map (fun n => process_node analyzer condition n cmds)

/-- sequential_runner: one task awaits process_node for each node in list
order, so the queue receives the nodes' events concatenated. -/
def sequential_events (analyzer : Analyzer) (condition : String)
    (nodes : List NodeRun) (cmds : List CmdConfig) : List Event :=
  (node_queues analyzer condition nodes cmds).flatten

/-- Parallel mode: the queue receives an interleaving of the per-node event
lists. The schedule lists, in order, which producer's next event is enqueued;
an index whose queue is exhausted (or out of range) contributes nothing.
Events are tagged with their producer index so that per-node claims can be
stated; the real queue carries only the events. -/
def interleave_tagged : List Nat → List (List Event) → List (Nat × Event)
  | [], _ => []
  | i :: rest, qs =>
    match qs[i]? with
    | some (e :: more) => (i, e) :: interleave_tagged rest (qs.set i more)
    | some [] => interleave_tagged rest qs
    | none => interleave_tagged rest qs

/-- What is left of each producer's event list after a schedule has run. -/
def final_queues : List Nat → List (List Event) → List (List Event)
  | [], qs => qs
  | i :: rest, qs =>
    match qs[i]? with
    | some (_ :: more) => final_queues rest (qs.set i more)
    | some [] => final_queues rest qs
    | none => final_queues rest qs

/-- The events of producer `j` inside a tagged interleaving, in order. -/
def proj_events (j : Nat) (l : List (Nat × Event)) : List Event :=
  l.filterMap (fun p => if p.fst = j then some p.snd else none)

/-- The list at index `j`, empty when out of range. -/
def queue_at (qs : List (List Event)) (j : Nat) : List Event :=
  (qs[j]?).getD []

/-- All events that reach the shared queue, in queue order: sequential mode
concatenates the nodes' events; any other execution_mode string is treated
as sequential, exactly as the code's `if execution_mode == "parallel"`. -/
def run_events (analyzer : Analyzer) (condition mode : String)
    (nodes : List NodeRun) (cmds : List CmdConfig) (sched : List Nat) : List Event :=
  if mode = "parallel" then
    (interleave_tagged sched (node_queues analyzer condition nodes cmds)).map Prod.snd
  else
    sequential_events analyzer condition nodes cmds

/-- The consumer in stream_execution: the polling loop yields each event it
gets and appends only "step" events to the timeline; once every task is
done, the drain loop yields and appends every remaining event; then the
complete event is yielded. `split` is how many events the polling loop
consumed before the drain; the pair is (streamed events, persisted
timeline). -/
def consume_events (events : List Event) (split : Nat) : List Event × List Event :=
  (events.take split ++ events.drop split ++ [complete_event],
   (events.take split).filter (fun e => decide (e.type = EventType.step))
     ++ events.drop split)

/-- The RuleExecution row (src/chat_models.py): its str-enum status, the
persisted timeline and whether completed_at has been stamped. -/
structure RuleExecutionRecord where
  status : String
  timeline : List Event
  completed_at : Bool
deriving DecidableEq

/-- execute_rule (src/chat_api.py): unconditionally creates and commits an
execution row with status EXECUTING and an empty timeline, for any rule,
before any validation of its nodes or commands. -/
def execute_rule : RuleExecutionRecord :=
  ⟨"executing", [], false⟩

/-- stream_execution's event generator, end to end: produce the run's
events, consume them, and finalize the row — status is set to COMPLETED
unconditionally, completed_at is stamped, and the consumed timeline is
persisted. Returns (the SSE stream's events, the finalized row). -/
def stream_execution (analyzer : Analyzer) (condition mode : String)
    (nodes : List NodeRun) (cmds : List CmdConfig) (split : Nat) (sched : List Nat) :
    List Event × RuleExecutionRecord :=
  ((consume_events (run_events analyzer condition mode nodes cmds sched) split).fst,
   ⟨"completed",
    (consume_events (run_events analyzer condition mode nodes cmds sched) split).snd,
    true⟩)

/-! ## execute_runbook's final status (src/executor.py) -/

/-- The all_success / any_success accumulation over the per-server,
per-command result statuses, in processing order. -/
def runbook_fold : List String → Bool → Bool → Bool × Bool
  | [], all_success, any_success => (all_success, any_success)
  | s :: rest, all_success, any_success =>
    if s = "SUCCESS" then runbook_fold rest all_success true
    else runbook_fold rest false any_success

/-- execute_runbook's final classification: SUCCESS when all_success,
PARTIAL when any_success, else FAILED (str-enum values). -/
def runbook_final_status (statuses : List String) : String :=
  if (runbook_fold statuses true false).fst then "success"
  else if (runbook_fold statuses true false).snd then "partial"
  else "failed"

/-! ## resolve_node (src/chat_engine.py) -/

/-- The maximal leading run of decimal digits of a character list, with the
remainder (Python \d over the ASCII inputs considered here). -/
def take_digits : List Char → List Char × List Char
  | [] => ([], [])
  | c :: rest =>
    if Char.isDigit c then
      ((take_digits rest).fst.cons c, (take_digits rest).snd)
    else ([], c :: rest)

/-- Matching `\d{1,3}sep` at the head of a list: because a digit run and the
separator are disjoint, the regex engine's greedy match with backtracking
accepts exactly a maximal digit run of length 1..3 followed by `sep`. -/
def match_octet (sep : Char) (cs : List Char) : Option (List Char × List Char) :=
  if 1 ≤ (take_digits cs).fst.length ∧ (take_digits cs).fst.length ≤ 3 then
    match (take_digits cs).snd with
    | c :: rest2 => if c = sep then some ((take_digits cs).fst, rest2) else none
    | [] => none
  else none

/-- Four octets joined by dots, the text an IP match captures. -/
def ip_join (o1 o2 o3 o4 : List Char) : List Char :=
  o1 ++ ('.' :: (o2 ++ ('.' :: (o3 ++ ('.' :: o4)))))

/-- Matching the pattern \((\d{1,3}\.\d{1,3}\.\d{1,3}\.\d{1,3})\) at the
head of a list: returns the captured group and the remainder after the
closing parenthesis. -/
def match_paren_ip (cs : List Char) : Option (List Char × List Char) :=
  match cs with
  | [] => none
  | c :: r0 =>
    if c = '(' then
      match match_octet '.' r0 with
      | none => none
      | some (o1, r1) =>
        match match_octet '.' r1 with
        | none => none
        | some (o2, r2) =>
          match match_octet '.' r2 with
          | none => none
          | some (o3, r3) =>
            match match_octet ')' r3 with
            | none => none
            | some (o4, r4) =>
              some (ip_join o1 o2 o3 o4, r4)
    else none

/-- re.search for the parenthesized-IP pattern: the captured group of the
leftmost match, scanning positions left to right. -/
def search_paren_ip : List Char → Option (List Char)
  | [] => none
  | c :: rest =>
    match match_paren_ip (c :: rest) with
    | some p => some p.fst
    | none => search_paren_ip rest

/-- re.sub of the parenthesized-IP pattern with the empty string: removes
each leftmost non-overlapping match and continues after it. The fuel is the
list length; every match consumes at least one character, so fuel equal to
the length makes the bounded recursion agree with re.sub. -/
def sub_paren_ip_fuel : Nat → List Char → List Char
  | 0, cs => cs
  | _ + 1, [] => []
  | fuel + 1, c :: rest =>
    match match_paren_ip (c :: rest) with
    | some p => sub_paren_ip_fuel fuel p.snd
    | none => c :: sub_paren_ip_fuel fuel rest

def sub_paren_ip (cs : List Char) : List Char :=
  sub_paren_ip_fuel cs.length cs

/-- str.strip(): whitespace removed from both ends. -/
def strip_chars (cs : List Char) : List Char :=
  ((cs.dropWhile Char.isWhitespace).reverse.dropWhile Char.isWhitespace).reverse

/-- Python's `$` outside MULTILINE: it matches at the end of the string or
just before a newline that ends the string. -/
def dollar_end : List Char → Bool
  | [] => true
  | c :: rest => decide (c = '\n') && rest.isEmpty

/-- The shared octet chain of the anchored IP pattern, with the end test a
parameter: `\d{1,3}\.\d{1,3}\.\d{1,3}\.\d{1,3}` followed by `endCheck`. -/
def match_ip_core (endCheck : List Char → Bool) (cs : List Char) : Bool :=
  match match_octet '.' cs with
  | none => false
  | some p1 =>
    match match_octet '.' p1.snd with
    | none => false
    | some p2 =>
      match match_octet '.' p2.snd with
      | none => false
      | some p3 =>
        decide (1 ≤ (take_digits p3.snd).fst.length ∧ (take_digits p3.snd).fst.length ≤ 3)
          && endCheck (take_digits p3.snd).snd

/-- re.match(r'^\d{1,3}\.\d{1,3}\.\d{1,3}\.\d{1,3}$', ...): anchored at the
start; the final `$` accepts the true end or one trailing newline. -/
def match_ip_full (cs : List Char) : Bool :=
  match_ip_core dollar_end cs

/-- First-occurrence association lookup, Python's `name in dict` plus
`dict[name]` (dict keys are unique, so first occurrence is the occurrence). -/
def lookup_node {α : Type} : List (String × α) → String → Option α
  | [], _ => none
  | (k, v) :: rest, name => if k = name then some v else lookup_node rest name

/-- What resolve_node returns in its (True, config) case: either the known
node's stored config, or the config it builds around an extracted IP with
default username "ubuntu" and port 22. -/
inductive ResolvedConfig (α : Type) where
  | stored (cfg : α)
  | inferred (name hostname username : String) (port : Nat)
deriving DecidableEq

/-- resolve_node (src/chat_engine.py): known-node lookup first; then
re.search for a parenthesized IP (the cleaned name is the input with every
match removed and stripped, falling back to the full input when empty);
then re.match of the bare-IP pattern; otherwise (False, None). -/
def resolve_node {α : Type} (known : List (String × α)) (node_name : String) :
    Bool × Option (ResolvedConfig α) :=
  match lookup_node known node_name with
  | some cfg => (true, some (ResolvedConfig.stored cfg))
  | none =>
    match search_paren_ip node_name.data with
    | some ip =>
      (true, some (ResolvedConfig.inferred
        (if (strip_chars (sub_paren_ip node_name.data)).isEmpty then node_name
         else String.mk (strip_chars (sub_paren_ip node_name.data)))
        (String.mk ip) "ubuntu" 22))
    | none =>
      if match_ip_full node_name.data then
        (true, some (ResolvedConfig.inferred node_name node_name "ubuntu" 22))
      else (false, none)

/-! ## Counting helpers used by the claims -/

def count_error (l : List Event) : Nat :=
  l.countP (fun e => decide (e.type = EventType.error))

/-- Two run outcomes that differ at most in how long the command took.
The streaming path has no per-command timeout, so its behaviour cannot
depend on the duration; the synchronous path's can. -/
def same_ignoring_duration : RunOutcome → RunOutcome → Prop
  | RunOutcome.ok o1 _, RunOutcome.ok o2 _ => o1 = o2
  | RunOutcome.err m1, RunOutcome.err m2 => m1 = m2
  | _, _ => False

/-! ## Spec-side predicates for C9 (the claim's reading of resolve_node) -/

/-- An IPv4 octet as the claim reads it: one to three digits, no range
check. -/
def octet_ok (ds : List Char) : Prop :=
  1 ≤ ds.length ∧ ds.length ≤ 3 ∧ ∀ c ∈ ds, Char.isDigit c = true

/-- The claim's "is itself entirely IPv4-shaped": the whole text is four
octets joined by dots, nothing before or after. -/
def ip_shaped_spec (cs : List Char) : Prop :=
  ∃ o1 o2 o3 o4, octet_ok o1 ∧ octet_ok o2 ∧ octet_ok o3 ∧ octet_ok o4 ∧
    cs = ip_join o1 o2 o3 o4

/-- The claim's "contains a parenthesized IPv4-shaped substring". -/
def contains_paren_ip_spec (cs : List Char) : Prop :=
  ∃ pre ip post, ip_shaped_spec ip ∧ cs = pre ++ '(' :: (ip ++ ')' :: post)

/-- The spec-side executable check of `ip_shaped_spec`: the anchored octet
chain with a strict end of input, no trailing-newline allowance. Proved
equivalent to `ip_shaped_spec` below; compared against the source-side
`match_ip_full`. -/
def match_ip_strict (cs : List Char) : Bool :=
  match_ip_core List.isEmpty cs

/-! ## Concrete fixtures used by witnesses and counterexamples -/

/-- An analyzer whose analysis never reports the condition met. -/
def quiet_analyzer : Analyzer := fun _ _ _ => ⟨"v", false, "ok", "info"⟩

/-- An analyzer that always reports a critical condition. -/
def alarm_analyzer : Analyzer := fun stdout _ _ => ⟨stdout, true, "disk full", "critical"⟩

/-- A node whose SSH connect raises. -/
def bad_node : NodeRun :=
  ⟨"n1", ⟨ConnectOutcome.err "unreachable", fun _ => RunOutcome.err "unreachable"⟩⟩

/-- A reachable node on which every command succeeds. -/
def good_node (node_name : String) : NodeRun :=
  ⟨node_name, ⟨ConnectOutcome.ok, fun _ => RunOutcome.ok "out" 0⟩⟩

/-- A node whose first command runs, after which the transport fails. -/
def flaky_node : NodeRun :=
  ⟨"n2", ⟨ConnectOutcome.ok,
    fun i => if i = 0 then RunOutcome.ok "out" 0 else RunOutcome.err "connection lost"⟩⟩

def cmds1 : List CmdConfig := [⟨"uptime", "check load"⟩]

def cmds2 : List CmdConfig := [⟨"uptime", "check load"⟩, ⟨"df -h", "check disk"⟩]

end Athena

namespace Athena

/-! ## Helper lemmas: consumer, sequential runner, interleaving -/

theorem consume_events_fst (events : List Event) (split : Nat) :
    (consume_events events split).fst = events ++ [complete_event] := by
  simp [consume_events]

theorem sequential_events_nil (analyzer : Analyzer) (condition : String)
    (cmds : List CmdConfig) : sequential_events analyzer condition [] cmds = [] := rfl

theorem sequential_events_cons (analyzer : Analyzer) (condition : String)
    (n : NodeRun) (nodes : List NodeRun) (cmds : List CmdConfig) :
    sequential_events analyzer condition (n :: nodes) cmds
      = process_node analyzer condition n cmds
        ++ sequential_events analyzer condition nodes cmds := by
  simp [sequential_events, node_queues]

theorem sequential_events_append (analyzer : Analyzer) (condition : String)
    (l1 l2 : List NodeRun) (cmds : List CmdConfig) :
    sequential_events analyzer condition (l1 ++ l2) cmds
      = sequential_events analyzer condition l1 cmds
        ++ sequential_events analyzer condition l2 cmds := by
  simp [sequential_events, node_queues]

theorem interleave_tagged_nil_queues (sched : List Nat) :
    interleave_tagged sched [] = [] := by
  induction sched with
  | nil => rfl
  | cons i rest ih => simp [interleave_tagged, ih]

theorem run_events_nil_nodes (analyzer : Analyzer) (condition mode : String)
    (cmds : List CmdConfig) (sched : List Nat) :
    run_events analyzer condition mode [] cmds sched = [] := by
  by_cases h : mode = "parallel" <;>
    simp [run_events, h, node_queues, sequential_events, interleave_tagged_nil_queues]

theorem interleave_proj (sched : List Nat) :
    ∀ (qs : List (List Event)) (j : Nat),
      proj_events j (interleave_tagged sched qs)
        ++ queue_at (final_queues sched qs) j = queue_at qs j := by
  induction sched with
  | nil => intro qs j; simp [interleave_tagged, final_queues, proj_events]
  | cons i rest ih =>
    intro qs j
    cases h : qs[i]? with
    | none => simp only [interleave_tagged, final_queues, h]; exact ih qs j
    | some q =>
      cases q with
      | nil => simp only [interleave_tagged, final_queues, h]; exact ih qs j
      | cons e more =>
        have hlt : i < qs.length := by
          by_contra hge
          rw [List.getElem?_eq_none (by omega)] at h
          exact Option.noConfusion h
        simp only [interleave_tagged, final_queues, h]
        by_cases hij : i = j
        · subst hij
          have hq : queue_at qs i = e :: more := by simp [queue_at, h]
          have hset : queue_at (qs.set i more) i = more := by
            simp [queue_at, List.getElem?_set_self hlt]
          have hproj : proj_events i ((i, e) :: interleave_tagged rest (qs.set i more))
              = e :: proj_events i (interleave_tagged rest (qs.set i more)) := by
            simp [proj_events]
          rw [hproj, List.cons_append, ih (qs.set i more) i, hset, hq]
        · have hset : queue_at (qs.set i more) j = queue_at qs j := by
            simp [queue_at, List.getElem?_set_ne hij]
          have hproj : proj_events j ((i, e) :: interleave_tagged rest (qs.set i more))
              = proj_events j (interleave_tagged rest (qs.set i more)) := by
            simp [proj_events, hij]
          rw [hproj, ih (qs.set i more) j, hset]

/-! ## Helper lemmas: the node worker -/

theorem count_error_append (l1 l2 : List Event) :
    count_error (l1 ++ l2) = count_error l1 + count_error l2 := by
  simp [count_error, List.countP_append]

theorem count_error_cmd_block (analyzer : Analyzer) (condition node_name : String)
    (c : CmdConfig) (stdout : String) :
    count_error (cmd_block analyzer condition node_name c stdout) = 0 := by
  by_cases h : (analyzer stdout c.logic condition).condition_met <;>
    simp [cmd_block, count_error, h, executing_event, output_received_event,
      analyzing_event, condition_met_event, condition_not_met_event,
      incident_event, step_event, step_event_status]

theorem count_error_flatten_zero :
    ∀ ll : List (List Event), (∀ l ∈ ll, count_error l = 0) →
      count_error ll.flatten = 0 := by
  intro ll
  induction ll with
  | nil => intro _; rfl
  | cons l rest ih =>
    intro h
    rw [List.flatten_cons, count_error_append, h l (by simp),
      ih (fun x hx => h x (by simp [hx]))]

theorem process_cmds_all_ok (analyzer : Analyzer) (condition node_name : String)
    (run : Nat → RunOutcome) (outs : Nat → String) (durs : Nat → Nat) :
    ∀ (cmds : List CmdConfig) (i : Nat),
      (∀ k, k < cmds.length → run (i + k) = RunOutcome.ok (outs (i + k)) (durs (i + k))) →
      process_cmds analyzer condition node_name run cmds i
        = ((List.range cmds.length).map (fun k =>
            cmd_block analyzer condition node_name (cmds.getD k ⟨"", ""⟩) (outs (i + k)))).flatten := by
  intro cmds
  induction cmds with
  | nil => intro i _; rfl
  | cons c rest ih =>
    intro i h
    have h0 : run i = RunOutcome.ok (outs i) (durs i) := by
      have := h 0 (by simp)
      simpa using this
    have hrest : ∀ k, k < rest.length →
        run (i + 1 + k) = RunOutcome.ok (outs (i + 1 + k)) (durs (i + 1 + k)) := by
      intro k hk
      have := h (k + 1) (by simp; omega)
      rwa [show i + (k + 1) = i + 1 + k by omega] at this
    simp only [process_cmds, h0]
    rw [ih (i + 1) hrest]
    have hfun : (fun k => cmd_block analyzer condition node_name
          (rest.getD k ⟨"", ""⟩) (outs (i + 1 + k)))
        = fun k => cmd_block analyzer condition node_name
            ((c :: rest).getD (k + 1) ⟨"", ""⟩) (outs (i + (k + 1))) := by
      funext k
      rw [List.getD_cons_succ, show i + 1 + k = i + (k + 1) by omega]
    rw [hfun, List.length_cons, List.range_succ_eq_map, List.map_cons,
      List.flatten_cons, List.map_map]
    simp only [Function.comp_def, Nat.succ_eq_add_one, List.getD_cons_zero,
      List.getD_cons_succ, Nat.add_zero]

theorem process_cmds_err_shape (analyzer : Analyzer) (condition node_name : String)
    (run : Nat → RunOutcome) (outs : Nat → String) (durs : Nat → Nat) (msg : String) :
    ∀ (f : Nat) (cmds : List CmdConfig) (i : Nat),
      f < cmds.length →
      (∀ k, k < f → run (i + k) = RunOutcome.ok (outs (i + k)) (durs (i + k))) →
      run (i + f) = RunOutcome.err msg →
      process_cmds analyzer condition node_name run cmds i
        = ((List.range f).map (fun k =>
            cmd_block analyzer condition node_name (cmds.getD k ⟨"", ""⟩) (outs (i + k)))).flatten
          ++ [executing_event node_name (cmds.getD f ⟨"", ""⟩).cmd,
              error_event node_name msg] := by
  intro f
  induction f with
  | zero =>
    intro cmds i hlen _ herr
    cases cmds with
    | nil => simp at hlen
    | cons c rest =>
      have h0 : run i = RunOutcome.err msg := by simpa using herr
      simp [process_cmds, h0]
  | succ f ih =>
    intro cmds i hlen hok herr
    cases cmds with
    | nil => simp at hlen
    | cons c rest =>
      have h0 : run i = RunOutcome.ok (outs i) (durs i) := by
        have := hok 0 (by omega)
        simpa using this
      have hrest : ∀ k, k < f →
          run (i + 1 + k) = RunOutcome.ok (outs (i + 1 + k)) (durs (i + 1 + k)) := by
        intro k hk
        have := hok (k + 1) (by omega)
        rwa [show i + (k + 1) = i + 1 + k by omega] at this
      have herr2 : run (i + 1 + f) = RunOutcome.err msg := by
        rwa [show i + (f + 1) = i + 1 + f by omega] at herr
      simp only [process_cmds, h0]
      rw [ih rest (i + 1) (by simpa using Nat.lt_of_succ_lt_succ hlen) hrest herr2]
      have hfun : (fun k => cmd_block analyzer condition node_name
            (rest.getD k ⟨"", ""⟩) (outs (i + 1 + k)))
          = fun k => cmd_block analyzer condition node_name
              ((c :: rest).getD (k + 1) ⟨"", ""⟩) (outs (i + (k + 1))) := by
        funext k
        rw [List.getD_cons_succ, show i + 1 + k = i + (k + 1) by omega]
      rw [hfun, List.range_succ_eq_map, List.map_cons, List.flatten_cons, List.map_map]
      simp only [Function.comp_def, Nat.succ_eq_add_one, List.getD_cons_zero,
        List.getD_cons_succ, Nat.add_zero, List.append_assoc]

theorem process_cmds_duration (analyzer : Analyzer) (condition node_name : String)
    (run1 run2 : Nat → RunOutcome)
    (h : ∀ k, same_ignoring_duration (run1 k) (run2 k)) :
    ∀ (cmds : List CmdConfig) (i : Nat),
      process_cmds analyzer condition node_name run1 cmds i
        = process_cmds analyzer condition node_name run2 cmds i := by
  intro cmds
  induction cmds with
  | nil => intro i; rfl
  | cons c rest ih =>
    intro i
    have hi := h i
    cases h1 : run1 i with
    | ok o1 d1 =>
      cases h2 : run2 i with
      | ok o2 d2 =>
        rw [h1, h2] at hi
        simp only [same_ignoring_duration] at hi
        subst hi
        simp only [process_cmds, h1, h2, ih]
      | err m2 =>
        rw [h1, h2] at hi
        simp [same_ignoring_duration] at hi
    | err m1 =>
      cases h2 : run2 i with
      | ok o2 d2 =>
        rw [h1, h2] at hi
        simp [same_ignoring_duration] at hi
      | err m2 =>
        rw [h1, h2] at hi
        simp only [same_ignoring_duration] at hi
        subst hi
        simp only [process_cmds, h1, h2]

end Athena

namespace Athena

/-! ## Helper lemmas: the IP matchers of resolve_node -/

theorem take_digits_sound :
    ∀ cs ds r, take_digits cs = (ds, r) →
      cs = ds ++ r ∧ (∀ c ∈ ds, Char.isDigit c = true)
        ∧ (∀ c, r.head? = some c → Char.isDigit c = false) := by
  intro cs
  induction cs with
  | nil =>
    intro ds r h
    simp [take_digits] at h
    simp [h.1, h.2]
  | cons c rest ih =>
    intro ds r h
    by_cases hd : Char.isDigit c
    · simp only [take_digits, if_pos hd] at h
      obtain ⟨h1, h2⟩ := Prod.mk.injEq .. ▸ h
      have := ih (take_digits rest).fst (take_digits rest).snd rfl
      subst h2
      refine ⟨?_, ?_, this.2.2⟩
      · rw [← h1, List.cons_append, ← this.1]
      · intro x hx
        rw [← h1] at hx
        rcases List.mem_cons.mp hx with hx | hx
        · rwa [hx]
        · exact this.2.1 x hx
    · simp only [take_digits, if_neg hd] at h
      obtain ⟨h1, h2⟩ := Prod.mk.injEq .. ▸ h
      subst h1 h2
      refine ⟨by simp, by simp, ?_⟩
      intro x hx
      simp only [List.head?_cons, Option.some.injEq] at hx
      subst hx
      simpa using hd

theorem take_digits_append :
    ∀ a r, (∀ c ∈ a, Char.isDigit c = true) →
      (∀ c, r.head? = some c → Char.isDigit c = false) →
      take_digits (a ++ r) = (a, r) := by
  intro a
  induction a with
  | nil =>
    intro r _ hr
    cases r with
    | nil => rfl
    | cons c rest =>
      have : Char.isDigit c = false := hr c (by simp)
      simp [take_digits, this]
  | cons c a2 ih =>
    intro r ha hr
    have hc : Char.isDigit c = true := ha c (by simp)
    have := ih r (fun x hx => ha x (by simp [hx])) hr
    simp [take_digits, hc, this]

theorem match_octet_sound (sep : Char) (cs ds r : List Char)
    (h : match_octet sep cs = some (ds, r)) :
    cs = ds ++ sep :: r ∧ octet_ok ds := by
  unfold match_octet at h
  split at h
  · rename_i hlen
    split at h
    · rename_i c rest2 heq
      split at h
      · rename_i hc
        simp only [Option.some.injEq, Prod.mk.injEq] at h
        have hs := take_digits_sound cs (take_digits cs).fst (take_digits cs).snd rfl
        constructor
        · rw [hs.1, heq, h.1, h.2, hc]
        · rw [← h.1]
          exact ⟨hlen.1, hlen.2, hs.2.1⟩
      · exact Option.noConfusion h
    · exact Option.noConfusion h
  · exact Option.noConfusion h

theorem match_octet_complete (sep : Char) (a r : List Char)
    (ha : octet_ok a) (hsep : Char.isDigit sep = false) :
    match_octet sep (a ++ sep :: r) = some (a, r) := by
  have ht : take_digits (a ++ sep :: r) = (a, sep :: r) := by
    apply take_digits_append a (sep :: r) ha.2.2
    intro c hc
    simp only [List.head?_cons, Option.some.injEq] at hc
    subst hc
    exact hsep
  simp [match_octet, ht, ha.1, ha.2.1]

theorem match_ip_core_iff (endCheck : List Char → Bool) (cs : List Char) :
    match_ip_core endCheck cs = true ↔
      ∃ o1 o2 o3 o4 tail, octet_ok o1 ∧ octet_ok o2 ∧ octet_ok o3 ∧ octet_ok o4 ∧
        endCheck tail = true ∧ (∀ c, tail.head? = some c → Char.isDigit c = false) ∧
        cs = o1 ++ ('.' :: (o2 ++ ('.' :: (o3 ++ ('.' :: (o4 ++ tail)))))) := by
  constructor
  · intro h
    simp only [match_ip_core] at h
    split at h
    · exact Bool.noConfusion h
    · rename_i p1 h1
      obtain ⟨a1, b1⟩ := p1
      split at h
      · exact Bool.noConfusion h
      · rename_i p2 h2
        obtain ⟨a2, b2⟩ := p2
        split at h
        · exact Bool.noConfusion h
        · rename_i p3 h3
          obtain ⟨a3, b3⟩ := p3
          rw [Bool.and_eq_true, decide_eq_true_iff] at h
          obtain ⟨⟨hg1, hg2⟩, hend⟩ := h
          have s1 := match_octet_sound '.' cs a1 b1 h1
          have s2 := match_octet_sound '.' b1 a2 b2 h2
          have s3 := match_octet_sound '.' b2 a3 b3 h3
          have s4 := take_digits_sound b3 (take_digits b3).fst (take_digits b3).snd rfl
          refine ⟨a1, a2, a3, (take_digits b3).fst, (take_digits b3).snd,
            s1.2, s2.2, s3.2, ⟨hg1, hg2, s4.2.1⟩, hend, s4.2.2, ?_⟩
          rw [s1.1, s2.1, s3.1, ← s4.1]
  · rintro ⟨o1, o2, o3, o4, tail, ho1, ho2, ho3, ho4, hend, htail, rfl⟩
    have hdot : Char.isDigit '.' = false := by decide
    have m1 := match_octet_complete '.' o1 (o2 ++ ('.' :: (o3 ++ ('.' :: (o4 ++ tail))))) ho1 hdot
    have m2 := match_octet_complete '.' o2 (o3 ++ ('.' :: (o4 ++ tail))) ho2 hdot
    have m3 := match_octet_complete '.' o3 (o4 ++ tail) ho3 hdot
    have t4 := take_digits_append o4 tail ho4.2.2 htail
    simp only [match_ip_core, m1, m2, m3, t4]
    simp [ho4.1, ho4.2.1, hend]

theorem match_ip_strict_iff (cs : List Char) :
    match_ip_strict cs = true ↔ ip_shaped_spec cs := by
  rw [match_ip_strict, match_ip_core_iff]
  constructor
  · rintro ⟨o1, o2, o3, o4, tail, ho1, ho2, ho3, ho4, hend, _, rfl⟩
    rw [List.isEmpty_iff] at hend
    subst hend
    exact ⟨o1, o2, o3, o4, ho1, ho2, ho3, ho4, by simp [ip_join]⟩
  · rintro ⟨o1, o2, o3, o4, ho1, ho2, ho3, ho4, rfl⟩
    exact ⟨o1, o2, o3, o4, [], ho1, ho2, ho3, ho4, by simp, by simp, by simp [ip_join]⟩

theorem dollar_end_iff (l : List Char) :
    dollar_end l = true ↔ l = [] ∨ l = ['\n'] := by
  cases l with
  | nil => simp [dollar_end]
  | cons c rest => simp [dollar_end, List.isEmpty_iff]

theorem match_ip_full_iff (cs : List Char) :
    match_ip_full cs = true ↔
      ip_shaped_spec cs ∨ ∃ t, ip_shaped_spec t ∧ cs = t ++ ['\n'] := by
  rw [match_ip_full, match_ip_core_iff]
  constructor
  · rintro ⟨o1, o2, o3, o4, tail, ho1, ho2, ho3, ho4, hend, _, rfl⟩
    rcases (dollar_end_iff tail).mp hend with rfl | rfl
    · exact Or.inl ⟨o1, o2, o3, o4, ho1, ho2, ho3, ho4, by simp [ip_join]⟩
    · refine Or.inr ⟨ip_join o1 o2 o3 o4, ⟨o1, o2, o3, o4, ho1, ho2, ho3, ho4, rfl⟩, ?_⟩
      simp [ip_join]
  · rintro (⟨o1, o2, o3, o4, ho1, ho2, ho3, ho4, rfl⟩ |
      ⟨t, ⟨o1, o2, o3, o4, ho1, ho2, ho3, ho4, rfl⟩, rfl⟩)
    · exact ⟨o1, o2, o3, o4, [], ho1, ho2, ho3, ho4, by simp [dollar_end], by simp,
        by simp [ip_join]⟩
    · refine ⟨o1, o2, o3, o4, ['\n'], ho1, ho2, ho3, ho4, by simp [dollar_end], ?_, ?_⟩
      · intro c hc
        simp only [List.head?_cons, Option.some.injEq] at hc
        subst hc
        decide
      · simp [ip_join]

end Athena

namespace Athena

theorem match_paren_ip_sound (cs ip rest : List Char)
    (h : match_paren_ip cs = some (ip, rest)) :
    ∃ o1 o2 o3 o4, octet_ok o1 ∧ octet_ok o2 ∧ octet_ok o3 ∧ octet_ok o4 ∧
      ip = ip_join o1 o2 o3 o4 ∧
      cs = '(' :: (o1 ++ ('.' :: (o2 ++ ('.' :: (o3 ++ ('.' :: (o4 ++ ')' :: rest))))))) := by
  cases cs with
  | nil => exact Option.noConfusion h
  | cons c r0 =>
    simp only [match_paren_ip] at h
    split at h
    · rename_i hc
      subst hc
      split at h
      · exact Option.noConfusion h
      · rename_i a1 b1 h1
        split at h
        · exact Option.noConfusion h
        · rename_i a2 b2 h2
          split at h
          · exact Option.noConfusion h
          · rename_i a3 b3 h3
            split at h
            · exact Option.noConfusion h
            · rename_i a4 b4 h4
              simp only [Option.some.injEq, Prod.mk.injEq] at h
              have s1 := match_octet_sound '.' r0 a1 b1 h1
              have s2 := match_octet_sound '.' b1 a2 b2 h2
              have s3 := match_octet_sound '.' b2 a3 b3 h3
              have s4 := match_octet_sound ')' b3 a4 b4 h4
              refine ⟨a1, a2, a3, a4, s1.2, s2.2, s3.2, s4.2, h.1.symm, ?_⟩
              rw [s1.1, s2.1, s3.1, s4.1, h.2]
    · exact Option.noConfusion h

theorem match_paren_ip_complete (o1 o2 o3 o4 r : List Char)
    (ho1 : octet_ok o1) (ho2 : octet_ok o2) (ho3 : octet_ok o3) (ho4 : octet_ok o4) :
    match_paren_ip
        ('(' :: (o1 ++ ('.' :: (o2 ++ ('.' :: (o3 ++ ('.' :: (o4 ++ ')' :: r))))))))
      = some (ip_join o1 o2 o3 o4, r) := by
  have hdot : Char.isDigit '.' = false := by decide
  have hparen : Char.isDigit ')' = false := by decide
  have m1 := match_octet_complete '.' o1 (o2 ++ ('.' :: (o3 ++ ('.' :: (o4 ++ ')' :: r))))) ho1 hdot
  have m2 := match_octet_complete '.' o2 (o3 ++ ('.' :: (o4 ++ ')' :: r))) ho2 hdot
  have m3 := match_octet_complete '.' o3 (o4 ++ ')' :: r) ho3 hdot
  have m4 := match_octet_complete ')' o4 r ho4 hparen
  simp [match_paren_ip, m1, m2, m3, m4]

theorem search_paren_ip_sound :
    ∀ cs ip, search_paren_ip cs = some ip → contains_paren_ip_spec cs := by
  intro cs
  induction cs with
  | nil => intro ip h; exact Option.noConfusion h
  | cons c rest ih =>
    intro ip h
    simp only [search_paren_ip] at h
    split at h
    · rename_i p hm
      obtain ⟨g, after⟩ := p
      obtain ⟨o1, o2, o3, o4, ho1, ho2, ho3, ho4, hg, hshape⟩ :=
        match_paren_ip_sound (c :: rest) g after hm
      refine ⟨[], ip_join o1 o2 o3 o4, after,
        ⟨o1, o2, o3, o4, ho1, ho2, ho3, ho4, rfl⟩, ?_⟩
      rw [List.nil_append, hshape]
      simp [ip_join, List.append_assoc]
    · obtain ⟨pre, ip0, post, hip0, heq⟩ := ih ip h
      exact ⟨c :: pre, ip0, post, hip0, by rw [heq, List.cons_append]⟩

theorem search_paren_ip_complete :
    ∀ (pre ip post : List Char), ip_shaped_spec ip →
      (search_paren_ip (pre ++ '(' :: (ip ++ ')' :: post))).isSome = true := by
  intro pre
  induction pre with
  | nil =>
    intro ip post hip
    obtain ⟨o1, o2, o3, o4, ho1, ho2, ho3, ho4, rfl⟩ := hip
    have hm := match_paren_ip_complete o1 o2 o3 o4 post ho1 ho2 ho3 ho4
    have hshape : ip_join o1 o2 o3 o4 ++ ')' :: post
        = o1 ++ ('.' :: (o2 ++ ('.' :: (o3 ++ ('.' :: (o4 ++ ')' :: post)))))) := by
      simp [ip_join, List.append_assoc]
    rw [List.nil_append, hshape]
    simp [search_paren_ip, hm]
  | cons c pre2 ih =>
    intro ip post hip
    rw [List.cons_append]
    cases h : match_paren_ip (c :: (pre2 ++ '(' :: (ip ++ ')' :: post))) with
    | some p => simp [search_paren_ip, h]
    | none =>
      simp only [search_paren_ip, h]
      exact ih ip post hip

end Athena

namespace Athena

/-! ## Helper lemmas: runbook classification and string facts -/

theorem runbook_fold_eq :
    ∀ (l : List String) (a b : Bool),
      runbook_fold l a b
        = (a && l.all (fun s => s == "SUCCESS"), b || l.any (fun s => s == "SUCCESS")) := by
  intro l
  induction l with
  | nil => intro a b; simp [runbook_fold]
  | cons s rest ih =>
    intro a b
    by_cases hs : s = "SUCCESS"
    · simp [runbook_fold, hs, ih]
    · have hb : (s == "SUCCESS") = false := by simp [hs]
      simp [runbook_fold, hs, hb, ih]

theorem append_left_ne_empty (s t : String) (hs : s.data ≠ []) : s ++ t ≠ "" := by
  intro h
  have hd := congrArg String.data h
  rw [String.data_append, show ("" : String).data = [] from rfl] at hd
  exact hs (List.append_eq_nil.mp hd).1

theorem timeout_message_ne_empty (t : Nat) :
    ("Command timed out after " ++ toString t ++ " seconds") ≠ "" := by
  apply append_left_ne_empty
  rw [String.data_append]
  intro h
  exact absurd (List.append_eq_nil.mp h).1 (by decide)

/-! ## C1 -/

/-- Claim C1 counterexample: a run in which the only node emits an error
event (so no node succeeded) is still finalized by the streaming path with
status "completed", not "failed". -/
theorem c1_claim_counterexample :
    count_error (run_events quiet_analyzer "c" "sequential" [bad_node] cmds1 []) = 1
    ∧ (stream_execution quiet_analyzer "c" "sequential" [bad_node] cmds1 0 []).snd.status
        = "completed"
    ∧ (stream_execution quiet_analyzer "c" "sequential" [bad_node] cmds1 0 []).snd.status
        ≠ "failed" := by
  refine ⟨by decide, rfl, by decide⟩

/-- Claim C1 amended: the streaming path finalizes every run's record with
status "completed" (and stamps completed_at) regardless of per-node
outcomes; the Success/Partial/Failed classification exists only in the
runbook path, over per-server per-command result statuses: "success" iff
every result succeeded, "failed" iff there is at least one result and none
succeeded, "partial" iff some succeeded and some did not. -/
theorem c1_overall_status_amended :
    (∀ (analyzer : Analyzer) (condition mode : String) (nodes : List NodeRun)
        (cmds : List CmdConfig) (split : Nat) (sched : List Nat),
        (stream_execution analyzer condition mode nodes cmds split sched).snd.status
            = "completed"
        ∧ (stream_execution analyzer condition mode nodes cmds split sched).snd.completed_at
            = true)
    ∧ (∀ statuses : List String,
        (runbook_final_status statuses = "success" ↔ ∀ s ∈ statuses, s = "SUCCESS")
        ∧ (runbook_final_status statuses = "failed" ↔
            statuses ≠ [] ∧ ∀ s ∈ statuses, s ≠ "SUCCESS")
        ∧ (runbook_final_status statuses = "partial" ↔
            (∃ s ∈ statuses, s = "SUCCESS") ∧ ∃ s ∈ statuses, s ≠ "SUCCESS")) := by
  constructor
  · intro analyzer condition mode nodes cmds split sched
    exact ⟨rfl, rfl⟩
  · intro statuses
    have hfold := runbook_fold_eq statuses true false
    simp only [Bool.true_and, Bool.false_or] at hfold
    by_cases hall : statuses.all (fun s => s == "SUCCESS") = true
    · have hres : runbook_final_status statuses = "success" := by
        simp [runbook_final_status, hfold, hall]
      have hmem : ∀ s ∈ statuses, s = "SUCCESS" := by
        intro s hs
        have := List.all_eq_true.mp hall s hs
        simpa using this
      refine ⟨iff_of_true hres hmem, ?_, ?_⟩
      · rw [hres]
        constructor
        · intro h; exact absurd h (by decide)
        · rintro ⟨hne, hnone⟩
          cases statuses with
          | nil => exact absurd rfl hne
          | cons s rest => exact absurd (hmem s (by simp)) (hnone s (by simp))
      · rw [hres]
        constructor
        · intro h; exact absurd h (by decide)
        · rintro ⟨_, s, hs, hneq⟩
          exact absurd (hmem s hs) hneq
    · have hne : statuses ≠ [] := by
        intro h
        subst h
        simp at hall
      by_cases hany : statuses.any (fun s => s == "SUCCESS") = true
      · have hres : runbook_final_status statuses = "partial" := by
          simp [runbook_final_status, hfold, hall, hany]
        have hwit : ∃ s ∈ statuses, s = "SUCCESS" := by
          obtain ⟨s, hs, hb⟩ := List.any_eq_true.mp hany
          exact ⟨s, hs, by simpa using hb⟩
        have hfailwit : ∃ s ∈ statuses, s ≠ "SUCCESS" := by
          by_contra hno
          push_neg at hno
          apply hall
          exact List.all_eq_true.mpr (fun s hs => by simp [hno s hs])
        refine ⟨?_, ?_, iff_of_true hres ⟨hwit, hfailwit⟩⟩
        · rw [hres]
          constructor
          · intro h; exact absurd h (by decide)
          · intro hmem
            exact absurd (List.all_eq_true.mpr (fun s hs => by simp [hmem s hs])) hall
        · rw [hres]
          constructor
          · intro h; exact absurd h (by decide)
          · rintro ⟨_, hnone⟩
            obtain ⟨s, hs, heq⟩ := hwit
            exact absurd heq (hnone s hs)
      · have hres : runbook_final_status statuses = "failed" := by
          simp [runbook_final_status, hfold, hall, hany]
        have hnone : ∀ s ∈ statuses, s ≠ "SUCCESS" := by
          intro s hs heq
          apply hany
          exact List.any_eq_true.mpr ⟨s, hs, by simp [heq]⟩
        refine ⟨?_, iff_of_true hres ⟨hne, hnone⟩, ?_⟩
        · rw [hres]
          constructor
          · intro h; exact absurd h (by decide)
          · intro hmem
            exact absurd (List.all_eq_true.mpr (fun s hs => by simp [hmem s hs])) hall
        · rw [hres]
          constructor
          · intro h; exact absurd h (by decide)
          · rintro ⟨⟨s, hs, heq⟩, _⟩
            exact absurd heq (hnone s hs)

/-- Witness for C1's amended statement at a concrete input. -/
theorem c1_overall_status_witness :
    runbook_final_status ["SUCCESS", "SUCCESS"] = "success" :=
  (c1_overall_status_amended.2 ["SUCCESS", "SUCCESS"]).1.mpr (by decide)

/-! ## C2 -/

/-- Claim C2 counterexample: the error event of an unreachable node is
observed and streamed, but when it is consumed by the polling loop (here
the split is past it) it is dropped from the persisted timeline. -/
theorem c2_claim_counterexample :
    error_event "n1" "unreachable"
        ∈ run_events quiet_analyzer "c" "sequential" [bad_node] cmds1 []
    ∧ error_event "n1" "unreachable"
        ∉ (stream_execution quiet_analyzer "c" "sequential" [bad_node] cmds1 2 []).snd.timeline
    ∧ (stream_execution quiet_analyzer "c" "sequential" [bad_node] cmds1 2 []).snd.timeline
        ≠ run_events quiet_analyzer "c" "sequential" [bad_node] cmds1 [] := by
  refine ⟨by decide, by decide, by decide⟩

/-- Claim C2 amended: the consumer never drops an event from the stream —
the streamed output is exactly the produced events in observation order
followed by the single complete event; every event consumed by the drain
loop and every step event is retained in the persisted timeline, and the
timeline holds only observed events. (Incident and error events consumed
by the polling loop are streamed but not persisted.) -/
theorem c2_stream_retention_amended :
    ∀ (analyzer : Analyzer) (condition mode : String) (nodes : List NodeRun)
      (cmds : List CmdConfig) (split : Nat) (sched : List Nat),
      (stream_execution analyzer condition mode nodes cmds split sched).fst
        = run_events analyzer condition mode nodes cmds sched ++ [complete_event]
      ∧ (∀ e ∈ (run_events analyzer condition mode nodes cmds sched).drop split,
          e ∈ (stream_execution analyzer condition mode nodes cmds split sched).snd.timeline)
      ∧ (∀ e ∈ run_events analyzer condition mode nodes cmds sched,
          e.type = EventType.step →
          e ∈ (stream_execution analyzer condition mode nodes cmds split sched).snd.timeline)
      ∧ (∀ e ∈ (stream_execution analyzer condition mode nodes cmds split sched).snd.timeline,
          e ∈ run_events analyzer condition mode nodes cmds sched) := by
  intro analyzer condition mode nodes cmds split sched
  refine ⟨consume_events_fst _ _, ?_, ?_, ?_⟩
  · intro e he
    simp only [stream_execution, consume_events]
    exact List.mem_append_right _ he
  · intro e he hstep
    simp only [stream_execution, consume_events]
    rw [← List.take_append_drop split
      (run_events analyzer condition mode nodes cmds sched)] at he
    rcases List.mem_append.mp he with h1 | h2
    · exact List.mem_append_left _ (List.mem_filter.mpr ⟨h1, by simp [hstep]⟩)
    · exact List.mem_append_right _ h2
  · intro e he
    simp only [stream_execution, consume_events] at he
    rcases List.mem_append.mp he with h1 | h2
    · exact List.take_subset _ _ (List.mem_filter.mp h1).1
    · exact List.drop_subset _ _ h2

/-- Witness for C2's amended statement at a concrete input. -/
theorem c2_retention_witness :
    (stream_execution quiet_analyzer "c" "sequential" [good_node "n1"] cmds1 0 []).fst
      = run_events quiet_analyzer "c" "sequential" [good_node "n1"] cmds1 []
        ++ [complete_event] :=
  (c2_stream_retention_amended quiet_analyzer "c" "sequential" [good_node "n1"] cmds1 0 []).1

/-! ## C3 -/

/-- Claim C3 counterexample: a plan with zero nodes is not rejected — the
stream is a single complete (not error) event, an execution row was
persisted by execute_rule before any validation, and the run is finalized
(completed_at stamped, status "completed"). -/
theorem c3_claim_counterexample :
    (stream_execution quiet_analyzer "c" "sequential" [] cmds1 0 []).fst = [complete_event]
    ∧ complete_event.type = EventType.complete
    ∧ EventType.complete ≠ EventType.error
    ∧ execute_rule.status = "executing"
    ∧ (stream_execution quiet_analyzer "c" "sequential" [] cmds1 0 []).snd.completed_at
        = true := by
  refine ⟨by decide, rfl, by decide, rfl, rfl⟩

/-- Claim C3 amended: empty plans are not validated. A zero-node plan
streams exactly one complete event and finalizes a persisted record with
status "completed" and empty timeline, in any mode; a zero-command plan
still spawns a worker per node, which connects and emits its connecting
and connected steps. -/
theorem c3_empty_plan_amended :
    (∀ (analyzer : Analyzer) (condition mode : String) (cmds : List CmdConfig)
        (split : Nat) (sched : List Nat),
        (stream_execution analyzer condition mode [] cmds split sched).fst = [complete_event]
        ∧ (stream_execution analyzer condition mode [] cmds split sched).snd
            = ⟨"completed", [], true⟩)
    ∧ (∀ (analyzer : Analyzer) (condition node_name : String) (run : Nat → RunOutcome),
        process_node analyzer condition ⟨node_name, ⟨ConnectOutcome.ok, run⟩⟩ []
          = [connecting_event node_name, connected_event node_name]) := by
  constructor
  · intro analyzer condition mode cmds split sched
    have h0 := run_events_nil_nodes analyzer condition mode cmds sched
    constructor
    · show (consume_events (run_events analyzer condition mode [] cmds sched) split).fst = _
      rw [h0]
      simp [consume_events]
    · show (⟨"completed",
        (consume_events (run_events analyzer condition mode [] cmds sched) split).snd,
        true⟩ : RuleExecutionRecord) = _
      rw [h0]
      simp [consume_events]
  · intro analyzer condition node_name run
    rfl

/-- Witness for C3's amended statement at a concrete input. -/
theorem c3_empty_plan_witness :
    (stream_execution quiet_analyzer "c" "parallel" [] cmds1 3 [0, 1]).fst
      = [complete_event] :=
  (c3_empty_plan_amended.1 quiet_analyzer "c" "parallel" cmds1 3 [0, 1]).1

/-! ## C4 -/

/-- Claim C4: the synchronous path (SSHExecutor.run_command) bounds each
command by its timeout (default 300s) and a timeout returns a result
distinguishable from a non-zero exit, while the streaming path's worker
awaits conn.run with no timeout at all — its emitted events are identical
for any command durations, so a hung command is never converted into a
timeout error there. -/
theorem c4_timeout_paths :
    (∀ (e : Int) (out err : String) (d : Nat), d > 300 →
        run_command 300 (SSHRunBehavior.completes e out err d)
          = ⟨"FAILED", "", "Command timed out after 300 seconds", -1⟩)
    ∧ (∀ (e : Int) (out err : String) (d : Nat), d ≤ 300 → e ≠ 0 →
        run_command 300 (SSHRunBehavior.completes e out err d) = ⟨"FAILED", out, err, e⟩)
    ∧ (∀ (analyzer : Analyzer) (condition node_name : String) (b1 b2 : NodeBehavior)
        (cmds : List CmdConfig),
        b1.connect = b2.connect →
        (∀ k, same_ignoring_duration (b1.run k) (b2.run k)) →
        process_node analyzer condition ⟨node_name, b1⟩ cmds
          = process_node analyzer condition ⟨node_name, b2⟩ cmds) := by
  refine ⟨?_, ?_, ?_⟩
  · intro e out err d hd
    simp only [run_command]
    rw [if_pos hd]
    decide
  · intro e out err d hd he
    simp only [run_command]
    rw [if_neg (by omega)]
    simp [he]
  · intro analyzer condition node_name b1 b2 cmds hconn hrun
    simp only [process_node]
    cases hc : b1.connect with
    | err m =>
      rw [hc] at hconn
      rw [← hconn]
    | ok =>
      rw [hc] at hconn
      rw [← hconn]
      rw [process_cmds_duration analyzer condition node_name b1.run b2.run hrun cmds 0]

/-- Witness for C4 at concrete inputs: a command that takes a billion
seconds is cut off by the synchronous runner but leaves the streaming
worker's events unchanged. -/
theorem c4_timeout_witness :
    run_command 300 (SSHRunBehavior.completes 0 "up" "" 1000000000)
      = ⟨"FAILED", "", "Command timed out after 300 seconds", -1⟩
    ∧ process_node quiet_analyzer "c"
        ⟨"n1", ⟨ConnectOutcome.ok, fun _ => RunOutcome.ok "out" 1000000000⟩⟩ cmds1
      = process_node quiet_analyzer "c"
        ⟨"n1", ⟨ConnectOutcome.ok, fun _ => RunOutcome.ok "out" 0⟩⟩ cmds1 :=
  ⟨c4_timeout_paths.1 0 "up" "" 1000000000 (by norm_num),
   c4_timeout_paths.2.2 quiet_analyzer "c" "n1" _ _ cmds1 rfl (fun _ => rfl)⟩

/-! ## C10 -/

/-- Claim C10: SSHExecutor.run_command is total over every behaviour of the
transport; each failure branch (timeout, asyncssh error, any other
exception) returns status "FAILED", empty stdout, non-empty stderr and
exit_code -1; a command that completes within the timeout keeps its real
exit code, with status "SUCCESS" exactly when that exit code is 0. -/
theorem c10_run_command_total :
    (∀ (t : Nat) (msg : String),
        run_command t (SSHRunBehavior.sshError msg)
          = ⟨"FAILED", "", "SSH error: " ++ msg, -1⟩
        ∧ run_command t (SSHRunBehavior.otherError msg)
          = ⟨"FAILED", "", "Unexpected error: " ++ msg, -1⟩
        ∧ ("SSH error: " ++ msg) ≠ ""
        ∧ ("Unexpected error: " ++ msg) ≠ "")
    ∧ (∀ (t : Nat) (e : Int) (out err : String) (d : Nat), d > t →
        run_command t (SSHRunBehavior.completes e out err d)
          = ⟨"FAILED", "", "Command timed out after " ++ toString t ++ " seconds", -1⟩
        ∧ ("Command timed out after " ++ toString t ++ " seconds") ≠ "")
    ∧ (∀ (t : Nat) (e : Int) (out err : String) (d : Nat), d ≤ t →
        (run_command t (SSHRunBehavior.completes e out err d)).exit_code = e
        ∧ ((run_command t (SSHRunBehavior.completes e out err d)).status = "SUCCESS"
            ↔ e = 0)) := by
  refine ⟨?_, ?_, ?_⟩
  · intro t msg
    exact ⟨rfl, rfl, append_left_ne_empty _ _ (by decide),
      append_left_ne_empty _ _ (by decide)⟩
  · intro t e out err d hd
    constructor
    · simp only [run_command]
      rw [if_pos hd]
    · exact timeout_message_ne_empty t
  · intro t e out err d hd
    have hnot : ¬ d > t := by omega
    constructor
    · simp only [run_command]
      rw [if_neg hnot]
    · simp only [run_command]
      rw [if_neg hnot]
      by_cases he : e = 0
      · simp [he]
      · simp only [if_neg he]
        constructor
        · intro h; exact absurd h (by decide)
        · intro h; exact absurd h he

/-- Witness for C10 at concrete inputs. -/
theorem c10_run_command_witness :
    (run_command 300 (SSHRunBehavior.completes 7 "out" "err" 1)).status = "SUCCESS"
      ↔ (7 : Int) = 0 :=
  (c10_run_command_total.2.2 300 7 "out" "err" 1 (by norm_num)).2

end Athena

namespace Athena

/-! ## Helper lemmas: unfolding process_node on a known connect outcome -/

theorem process_node_connect_err (analyzer : Analyzer) (condition node_name : String)
    (b : NodeBehavior) (cmds : List CmdConfig) (msg : String)
    (hc : b.connect = ConnectOutcome.err msg) :
    process_node analyzer condition ⟨node_name, b⟩ cmds
      = [connecting_event node_name, error_event node_name msg] := by
  obtain ⟨conn, run⟩ := b
  cases conn with
  | err m =>
    have : m = msg := by
      have := ConnectOutcome.err.injEq m msg ▸ hc
      simpa using hc
    subst this
    rfl
  | ok => exact ConnectOutcome.noConfusion hc

theorem process_node_connect_ok (analyzer : Analyzer) (condition node_name : String)
    (b : NodeBehavior) (cmds : List CmdConfig)
    (hc : b.connect = ConnectOutcome.ok) :
    process_node analyzer condition ⟨node_name, b⟩ cmds
      = connecting_event node_name :: connected_event node_name ::
          process_cmds analyzer condition node_name b.run cmds 0 := by
  obtain ⟨conn, run⟩ := b
  cases conn with
  | ok => rfl
  | err m => exact ConnectOutcome.noConfusion hc

/-! ## C5 -/

/-- Claim C5: a transport or connect error on a node produces exactly one
error event for that node, that event ends the node's sequence (the
remaining commands are not attempted: any behaviour agreeing up to the
failing command gives the same events), and the failure leaves the other
nodes untouched — in sequential mode their full event blocks surround the
failed node's, and in parallel mode every node's events in the interleaved
stream are exactly its own worker's output. -/
theorem c5_node_failure_isolation
    (analyzer : Analyzer) (condition node_name : String) (b : NodeBehavior)
    (cmds : List CmdConfig) (msg : String) (f : Nat)
    (outs : Nat → String) (durs : Nat → Nat)
    (ns1 ns2 : List NodeRun) (sched : List Nat) (j : Nat) :
    (b.connect = ConnectOutcome.err msg →
      process_node analyzer condition ⟨node_name, b⟩ cmds
        = [connecting_event node_name, error_event node_name msg]
      ∧ count_error (process_node analyzer condition ⟨node_name, b⟩ cmds) = 1)
    ∧ (b.connect = ConnectOutcome.ok → f < cmds.length →
      (∀ i, i < f → b.run i = RunOutcome.ok (outs i) (durs i)) →
      b.run f = RunOutcome.err msg →
      process_node analyzer condition ⟨node_name, b⟩ cmds
        = connecting_event node_name :: connected_event node_name ::
            (((List.range f).map (fun k =>
              cmd_block analyzer condition node_name (cmds.getD k ⟨"", ""⟩) (outs k))).flatten
            ++ [executing_event node_name (cmds.getD f ⟨"", ""⟩).cmd,
                error_event node_name msg])
      ∧ count_error (process_node analyzer condition ⟨node_name, b⟩ cmds) = 1
      ∧ (∀ b2 : NodeBehavior, b2.connect = ConnectOutcome.ok →
          (∀ i, i ≤ f → b2.run i = b.run i) →
          process_node analyzer condition ⟨node_name, b2⟩ cmds
            = process_node analyzer condition ⟨node_name, b⟩ cmds))
    ∧ sequential_events analyzer condition (ns1 ++ ⟨node_name, b⟩ :: ns2) cmds
        = sequential_events analyzer condition ns1 cmds
          ++ process_node analyzer condition ⟨node_name, b⟩ cmds
          ++ sequential_events analyzer condition ns2 cmds
    ∧ (queue_at (final_queues sched
          (node_queues analyzer condition (ns1 ++ ⟨node_name, b⟩ :: ns2) cmds)) j = [] →
        proj_events j (interleave_tagged sched
          (node_queues analyzer condition (ns1 ++ ⟨node_name, b⟩ :: ns2) cmds))
          = queue_at (node_queues analyzer condition (ns1 ++ ⟨node_name, b⟩ :: ns2) cmds) j) := by
  refine ⟨?_, ?_, ?_, ?_⟩
  · intro hc
    have hpn := process_node_connect_err analyzer condition node_name b cmds msg hc
    refine ⟨hpn, ?_⟩
    rw [hpn]
    simp [count_error, connecting_event, error_event, step_event]
  · intro hc hflt hprev herr
    have hok := process_node_connect_ok analyzer condition node_name b cmds hc
    have hshape := process_cmds_err_shape analyzer condition node_name b.run outs durs msg
      f cmds 0 hflt (fun k hk => by simpa using hprev k hk) (by simpa using herr)
    simp only [Nat.zero_add] at hshape
    have hfull : process_node analyzer condition ⟨node_name, b⟩ cmds
        = connecting_event node_name :: connected_event node_name ::
            (((List.range f).map (fun k =>
              cmd_block analyzer condition node_name (cmds.getD k ⟨"", ""⟩) (outs k))).flatten
            ++ [executing_event node_name (cmds.getD f ⟨"", ""⟩).cmd,
                error_event node_name msg]) := by
      rw [hok, hshape]
    refine ⟨hfull, ?_, ?_⟩
    · have hb : count_error (((List.range f).map (fun k =>
          cmd_block analyzer condition node_name (cmds.getD k ⟨"", ""⟩) (outs k))).flatten)
          = 0 := by
        apply count_error_flatten_zero
        intro l hl
        obtain ⟨k, _, rfl⟩ := List.mem_map.mp hl
        exact count_error_cmd_block analyzer condition node_name _ _
      rw [hfull]
      simp only [count_error] at hb ⊢
      simp only [List.countP_cons, List.countP_append, List.countP_nil, hb]
      simp [connecting_event, connected_event, executing_event, error_event,
        step_event, step_event_status]
    · intro b2 hc2 hagree
      have hok2 := process_node_connect_ok analyzer condition node_name b2 cmds hc2
      have hshape2 := process_cmds_err_shape analyzer condition node_name b2.run outs durs msg
        f cmds 0 hflt
        (fun k hk => by
          have := hprev k hk
          rw [← hagree k (by omega)] at this
          simpa using this)
        (by
          have := herr
          rw [← hagree f (by omega)] at this
          simpa using this)
      simp only [Nat.zero_add] at hshape2
      rw [hok2, hshape2, hok, hshape]
  · rw [sequential_events_append, sequential_events_cons]
    simp [List.append_assoc]
  · intro hdrain
    have hp := interleave_proj sched
      (node_queues analyzer condition (ns1 ++ ⟨node_name, b⟩ :: ns2) cmds) j
    rw [hdrain, List.append_nil] at hp
    exact hp

/-- Witness for C5 at a concrete input: the flaky node's first command runs,
the second raises, and the worker emits exactly one error event. -/
theorem c5_isolation_witness :
    count_error (process_node quiet_analyzer "c" ⟨"n2", flaky_node.behavior⟩ cmds2) = 1 :=
  ((c5_node_failure_isolation quiet_analyzer "c" "n2" flaky_node.behavior cmds2
      "connection lost" 1 (fun _ => "out") (fun _ => 0) [] [] [] 0).2.1 rfl (by decide)
      (fun i hi => by
        have h0 : i = 0 := by omega
        subst h0
        rfl)
      rfl).2.1

/-! ## C6 -/

/-- Claim C6 counterexample: the degraded analysis produced on an internal
analyzer failure has summary "Could not analyze: <error>", not the claimed
"analysis unavailable". -/
theorem c6_claim_counterexample :
    analyze_output_with_llm (LLMOutcome.fail "API timeout")
      = ⟨"unknown", false, "Could not analyze: API timeout", "info"⟩
    ∧ (analyze_output_with_llm (LLMOutcome.fail "API timeout")).summary
        ≠ "analysis unavailable" := by
  exact ⟨rfl, by decide⟩

/-- Claim C6 amended: analyze_output_with_llm is total — on any internal
failure it returns the degraded analysis with conditionMet = false,
severity "info" and summary "Could not analyze: <error>" — and no analyzer
result can abort command execution: with the transport healthy, a worker
run against any analyzer emits no error event. -/
theorem c6_analyzer_degraded_amended :
    (∀ msg, analyze_output_with_llm (LLMOutcome.fail msg)
        = ⟨"unknown", false, "Could not analyze: " ++ msg, "info"⟩)
    ∧ (∀ a, analyze_output_with_llm (LLMOutcome.ok a) = a)
    ∧ (∀ (analyzer : Analyzer) (condition node_name : String) (run : Nat → RunOutcome)
        (outs : Nat → String) (durs : Nat → Nat) (cmds : List CmdConfig),
        (∀ k, k < cmds.length → run k = RunOutcome.ok (outs k) (durs k)) →
        count_error (process_node analyzer condition
          ⟨node_name, ⟨ConnectOutcome.ok, run⟩⟩ cmds) = 0) := by
  refine ⟨fun msg => rfl, fun a => rfl, ?_⟩
  intro analyzer condition node_name run outs durs cmds h
  have hok := process_node_connect_ok analyzer condition node_name
    ⟨ConnectOutcome.ok, run⟩ cmds rfl
  have hshape := process_cmds_all_ok analyzer condition node_name run outs durs cmds 0
    (fun k hk => by simpa using h k hk)
  simp only [Nat.zero_add] at hshape
  have hb : count_error (((List.range cmds.length).map (fun k =>
      cmd_block analyzer condition node_name (cmds.getD k ⟨"", ""⟩) (outs k))).flatten)
      = 0 := by
    apply count_error_flatten_zero
    intro l hl
    obtain ⟨k, _, rfl⟩ := List.mem_map.mp hl
    exact count_error_cmd_block analyzer condition node_name _ _
  rw [hok]
  show count_error (connecting_event node_name :: connected_event node_name ::
    process_cmds analyzer condition node_name run cmds 0) = 0
  rw [hshape]
  simp only [count_error] at hb ⊢
  simp only [List.countP_cons, hb]
  simp [connecting_event, connected_event, step_event, step_event_status]

/-- Witness for C6 at a concrete input: a worker whose analyzer always
fails internally still emits no error event. -/
theorem c6_analyzer_witness :
    count_error (process_node (fun _ _ _ => analyze_output_with_llm (LLMOutcome.fail "boom"))
      "c" ⟨"n1", ⟨ConnectOutcome.ok, fun _ => RunOutcome.ok "out" 0⟩⟩ cmds1) = 0 :=
  c6_analyzer_degraded_amended.2.2 (fun _ _ _ => analyze_output_with_llm (LLMOutcome.fail "boom"))
    "c" "n1" (fun _ => RunOutcome.ok "out" 0) (fun _ => "out") (fun _ => 0) cmds1
    (fun _ _ => rfl)

/-! ## C7 -/

/-- Claim C7: in sequential mode every event of an earlier node precedes
every event of a later node in the emitted stream — the stream is exactly
the nodes' event blocks concatenated in plan order, closed by the complete
event. -/
theorem c7_sequential_ordering
    (analyzer : Analyzer) (condition : String) (cmds : List CmdConfig)
    (split : Nat) (sched : List Nat)
    (ns1 ns2 ns3 : List NodeRun) (A B : NodeRun) :
    (stream_execution analyzer condition "sequential"
        (ns1 ++ A :: (ns2 ++ B :: ns3)) cmds split sched).fst
      = sequential_events analyzer condition ns1 cmds
        ++ (process_node analyzer condition A cmds
        ++ (sequential_events analyzer condition ns2 cmds
        ++ (process_node analyzer condition B cmds
        ++ (sequential_events analyzer condition ns3 cmds
        ++ [complete_event])))) := by
  have h2 : run_events analyzer condition "sequential"
      (ns1 ++ A :: (ns2 ++ B :: ns3)) cmds sched
      = sequential_events analyzer condition (ns1 ++ A :: (ns2 ++ B :: ns3)) cmds := by
    rw [run_events, if_neg (by decide)]
  calc (stream_execution analyzer condition "sequential"
      (ns1 ++ A :: (ns2 ++ B :: ns3)) cmds split sched).fst
      = run_events analyzer condition "sequential"
          (ns1 ++ A :: (ns2 ++ B :: ns3)) cmds sched ++ [complete_event] :=
        consume_events_fst _ _
    _ = _ := by
        rw [h2, sequential_events_append, sequential_events_cons,
          sequential_events_append, sequential_events_cons]
        simp [List.append_assoc]

/-! ## C8 -/

/-- Claim C8: with the transport healthy, a worker's events are the
connecting and connected steps followed by, for each command in order, the
block: executing, output_received (status success), analyzing, then either
condition_met (status warning) immediately followed by the incident event
carrying the analysis severity, summary and full analysis, or
condition_not_met (status success). -/
theorem c8_command_event_order
    (analyzer : Analyzer) (condition node_name : String) (run : Nat → RunOutcome)
    (outs : Nat → String) (durs : Nat → Nat) (cmds : List CmdConfig) :
    ((∀ k, k < cmds.length → run k = RunOutcome.ok (outs k) (durs k)) →
      process_node analyzer condition ⟨node_name, ⟨ConnectOutcome.ok, run⟩⟩ cmds
        = connecting_event node_name :: connected_event node_name ::
            ((List.range cmds.length).map (fun k =>
              cmd_block analyzer condition node_name (cmds.getD k ⟨"", ""⟩) (outs k))).flatten)
    ∧ (∀ (c : CmdConfig) (stdout : String),
        cmd_block analyzer condition node_name c stdout
          = executing_event node_name c.cmd
            :: output_received_event node_name
            :: analyzing_event node_name
            :: (if (analyzer stdout c.logic condition).condition_met then
                  [condition_met_event node_name (analyzer stdout c.logic condition).summary,
                   incident_event node_name (analyzer stdout c.logic condition)]
                else
                  [condition_not_met_event node_name
                    (analyzer stdout c.logic condition).summary]))
    ∧ (∀ (c : CmdConfig) (stdout : String),
        (incident_event node_name (analyzer stdout c.logic condition)).severity
            = some (analyzer stdout c.logic condition).severity
        ∧ (incident_event node_name (analyzer stdout c.logic condition)).details
            = some (analyzer stdout c.logic condition)
        ∧ (condition_met_event node_name (analyzer stdout c.logic condition).summary).status
            = some "warning"
        ∧ (condition_not_met_event node_name (analyzer stdout c.logic condition).summary).status
            = some "success"
        ∧ (output_received_event node_name).status = some "success") := by
  refine ⟨?_, fun c stdout => rfl, fun c stdout => ⟨rfl, rfl, rfl, rfl, rfl⟩⟩
  intro h
  have hok := process_node_connect_ok analyzer condition node_name
    ⟨ConnectOutcome.ok, run⟩ cmds rfl
  have hshape := process_cmds_all_ok analyzer condition node_name run outs durs cmds 0
    (fun k hk => by simpa using h k hk)
  simp only [Nat.zero_add] at hshape
  rw [hok]
  show connecting_event node_name :: connected_event node_name ::
      process_cmds analyzer condition node_name run cmds 0 = _
  rw [hshape]

/-- Witness for C8 at a concrete input: one command, analyzer reporting a
critical condition. -/
theorem c8_order_witness :
    process_node alarm_analyzer "c"
        ⟨"n1", ⟨ConnectOutcome.ok, fun _ => RunOutcome.ok "out" 0⟩⟩ cmds1
      = connecting_event "n1" :: connected_event "n1" ::
          ((List.range cmds1.length).map (fun k =>
            cmd_block alarm_analyzer "c" "n1" (cmds1.getD k ⟨"", ""⟩) "out")).flatten :=
  (c8_command_event_order alarm_analyzer "c" "n1" (fun _ => RunOutcome.ok "out" 0)
    (fun _ => "out") (fun _ => 0) cmds1).1 (fun _ _ => rfl)

/-! ## C9 -/

/-- Claim C9 counterexample: the name "1.2.3.4" followed by a newline is
resolved (Python's `$` matches before a trailing newline), yet it is not a
known node, is not entirely IPv4-shaped, and contains no parenthesized
IPv4-shaped substring — refuting the claimed "if and only if". -/
theorem c9_claim_counterexample :
    (resolve_node ([] : List (String × Unit)) "1.2.3.4\n").fst = true
    ∧ lookup_node ([] : List (String × Unit)) "1.2.3.4\n" = none
    ∧ ¬ contains_paren_ip_spec ("1.2.3.4\n").data
    ∧ ¬ ip_shaped_spec ("1.2.3.4\n").data := by
  refine ⟨by decide, rfl, ?_, ?_⟩
  · intro hcon
    obtain ⟨pre, ip, post, hip, heq⟩ := hcon
    have hsome := search_paren_ip_complete pre ip post hip
    rw [← heq] at hsome
    have hnone : search_paren_ip ("1.2.3.4\n").data = none := by decide
    rw [hnone] at hsome
    simp at hsome
  · intro hsh
    have htrue := (match_ip_strict_iff ("1.2.3.4\n").data).mpr hsh
    have hfalse : match_ip_strict ("1.2.3.4\n").data = false := by decide
    rw [hfalse] at htrue
    exact Bool.noConfusion htrue

/-- Claim C9 amended: resolve_node is total and deterministic; a known name
returns its stored config; otherwise a name resolves if and only if it
contains a parenthesized IPv4-shaped substring, or is entirely IPv4-shaped,
or is entirely IPv4-shaped followed by one trailing newline (each octet one
to three digits with no range check); every inferred config carries
username "ubuntu" and port 22, and an unresolved name yields (False, None). -/
theorem c9_resolve_amended {α : Type} (known : List (String × α)) (node_name : String) :
    ((resolve_node known node_name).fst = true ↔
      (lookup_node known node_name).isSome = true
      ∨ contains_paren_ip_spec node_name.data
      ∨ ip_shaped_spec node_name.data
      ∨ ∃ t, ip_shaped_spec t ∧ node_name.data = t ++ ['\n'])
    ∧ (∀ cfg, lookup_node known node_name = some cfg →
        resolve_node known node_name = (true, some (ResolvedConfig.stored cfg)))
    ∧ (∀ nm hn un pt, (resolve_node known node_name).snd
          = some (ResolvedConfig.inferred nm hn un pt) → un = "ubuntu" ∧ pt = 22)
    ∧ ((resolve_node known node_name).fst = false →
        (resolve_node known node_name).snd = none) := by
  cases hl : lookup_node known node_name with
  | some cfg =>
    refine ⟨?_, ?_, ?_, ?_⟩
    · apply iff_of_true
      · simp [resolve_node, hl]
      · exact Or.inl (by simp [hl])
    · intro cfg2 h2
      have : cfg = cfg2 := by simpa using h2
      subst this
      simp [resolve_node, hl]
    · intro nm hn un pt h
      rw [show resolve_node known node_name = (true, some (ResolvedConfig.stored cfg))
        from by simp [resolve_node, hl]] at h
      simp at h
    · intro hf
      rw [show (resolve_node known node_name).fst = true from by simp [resolve_node, hl]] at hf
      exact Bool.noConfusion hf
  | none =>
    cases hs : search_paren_ip node_name.data with
    | some ip =>
      have hres : resolve_node known node_name
          = (true, some (ResolvedConfig.inferred
              (if (strip_chars (sub_paren_ip node_name.data)).isEmpty then node_name
               else String.mk (strip_chars (sub_paren_ip node_name.data)))
              (String.mk ip) "ubuntu" 22)) := by
        simp [resolve_node, hl, hs]
      refine ⟨?_, ?_, ?_, ?_⟩
      · apply iff_of_true
        · rw [hres]
        · exact Or.inr (Or.inl (search_paren_ip_sound node_name.data ip hs))
      · intro cfg2 h2
        exact Option.noConfusion h2
      · intro nm hn un pt h
        rw [hres] at h
        simp only [Option.some.injEq, ResolvedConfig.inferred.injEq] at h
        exact ⟨h.2.2.1.symm, h.2.2.2.symm⟩
      · intro hf
        rw [hres] at hf
        exact Bool.noConfusion hf
    | none =>
      by_cases hm : match_ip_full node_name.data = true
      · have hres : resolve_node known node_name
            = (true, some (ResolvedConfig.inferred node_name node_name "ubuntu" 22)) := by
          simp [resolve_node, hl, hs, hm]
        refine ⟨?_, ?_, ?_, ?_⟩
        · apply iff_of_true
          · rw [hres]
          · rcases (match_ip_full_iff node_name.data).mp hm with hsh | hnl
            · exact Or.inr (Or.inr (Or.inl hsh))
            · exact Or.inr (Or.inr (Or.inr hnl))
        · intro cfg2 h2
          exact Option.noConfusion h2
        · intro nm hn un pt h
          rw [hres] at h
          simp only [Option.some.injEq, ResolvedConfig.inferred.injEq] at h
          exact ⟨h.2.2.1.symm, h.2.2.2.symm⟩
        · intro hf
          rw [hres] at hf
          exact Bool.noConfusion hf
      · have hres : resolve_node known node_name = (false, none) := by
          simp [resolve_node, hl, hs, hm]
        refine ⟨?_, ?_, ?_, ?_⟩
        · apply iff_of_false
          · rw [hres]
            simp
          · rintro (h1 | h2 | h3 | h4)
            · simp at h1
            · obtain ⟨pre, ip0, post, hip0, heq⟩ := h2
              have hsome := search_paren_ip_complete pre ip0 post hip0
              rw [← heq, hs] at hsome
              simp at hsome
            · exact hm ((match_ip_full_iff node_name.data).mpr (Or.inl h3))
            · exact hm ((match_ip_full_iff node_name.data).mpr (Or.inr h4))
        · intro cfg2 h2
          exact Option.noConfusion h2
        · intro nm hn un pt h
          rw [hres] at h
          simp at h
        · intro _
          rw [hres]

/-- Witness for C9 at a concrete input: a known node resolves to its
stored config. -/
theorem c9_resolve_witness :
    resolve_node [("db1", 5)] "db1" = (true, some (ResolvedConfig.stored 5)) :=
  (c9_resolve_amended [("db1", 5)] "db1").2.1 5 rfl

end Athena
